import Mathlib

/-!
Verification of the Matroska demuxer front-end (`modules/demux/mkv/mkv.cpp`).

The development shallowly embeds the decision logic of `BlockDecode`, `Demux`,
`Seek` and `Control` as pure Lean functions.  External collaborators
(the EBML parser, the byte stream, the output sink, `GetSyncInfo`, ...) are
abstracted as inputs: each embedded function receives the answers those
collaborators would give at the corresponding call sites.  Machine timestamps
(`mtime_t`, a signed 64-bit integer) are modelled as `Int`; byte sizes
(`size_t`) as `Nat`, with the 64-bit wrap-around made explicit where the code
relies on it.
-/

namespace Mkv

/-- Modelled from the spec: the "none"/invalid timestamp sentinel of the host
(`VLC_TS_INVALID` in `vlc_mtime.h`, which is not part of this repository).
The spec calls it the "invalid sentinel" / "none sentinel". -/
def VLC_TS_INVALID : Int := 0

/-- Modelled from the spec: the representation of timeline zero
(`VLC_TS_0` in `vlc_mtime.h`, not part of this repository), one tick above
the invalid sentinel. -/
def VLC_TS_0 : Int := 1

/-! ### BlockDecode: video timestamp regimes (mkv.cpp lines 669-693) -/

/-- Per-track state consulted by the video timestamp assignment in
`BlockDecode`: the two regime flags `b_dts_only` / `b_pts_only`, the mutable
last-decode-timestamp cursor `i_last_dts` and the default frame duration
`i_default_duration` (an unsigned duration, cast to `mtime_t` at use site). -/
structure VideoTsTrack where
  b_dts_only : Bool
  b_pts_only : Bool
  i_last_dts : Int
  i_default_duration : Nat
deriving DecidableEq

/-- Embedding of the timestamp assignment for a video-track frame in
`BlockDecode` (mkv.cpp lines 669-693).  Input `i_pts` is the per-frame
presentation-time origin at that point of the loop; the result is the pair
(presentation timestamp, decode timestamp) written to the emitted block. -/
def videoTimestamps (tk : VideoTsTrack) (i_pts : Int)
    (b_key_picture b_discardable_picture : Bool) : Int × Int :=
  if tk.b_dts_only then
    (VLC_TS_INVALID, i_pts)
  else if tk.b_pts_only then
    (i_pts, i_pts)
  else
    (i_pts,
      if b_key_picture || b_discardable_picture then i_pts
      else if tk.i_last_dts = VLC_TS_INVALID then i_pts
      else min i_pts (tk.i_last_dts + (tk.i_default_duration : Int)))

/-- Restatement of claim C1 in the words of the spec: decode-only tracks get
an invalid presentation timestamp and decode = origin; presentation-only
tracks get presentation = decode = origin; otherwise presentation = origin and
decode is the origin for key or discardable pictures, the origin when the
track has no previous decode timestamp, and otherwise
min(origin, previous decode + default duration). -/
def videoTimestampsSpec (tk : VideoTsTrack) (i_pts : Int)
    (b_key_picture b_discardable_picture : Bool) : Int × Int :=
  if tk.b_dts_only then
    (VLC_TS_INVALID, i_pts)
  else if tk.b_pts_only then
    (i_pts, i_pts)
  else if b_key_picture || b_discardable_picture then
    (i_pts, i_pts)
  else if tk.i_last_dts = VLC_TS_INVALID then
    (i_pts, i_pts)
  else
    (i_pts, min i_pts (tk.i_last_dts + (tk.i_default_duration : Int)))

/-! ### BlockDecode: origin advance between grouped frames (lines 697-700) -/

/-- Embedding of the per-frame origin update at the end of the `BlockDecode`
loop (mkv.cpp lines 697-700): advance by the default duration when it is
nonzero, otherwise invalidate for already-packetized tracks and advance by one
tick for tracks that still need packetizing. -/
def nextOrigin (i_default_duration : Nat) (b_packetized : Bool)
    (i_pts : Int) : Int :=
  if i_default_duration ≠ 0 then i_pts + (i_default_duration : Int)
  else if b_packetized then VLC_TS_INVALID
  else i_pts + 1

/-- Restatement of claim C7 in the words of the spec: advance by the default
duration when known; otherwise invalidate for tracks that are NOT already
packetized and advance by one tick for already-packetized tracks. -/
def nextOriginClaim (i_default_duration : Nat) (b_packetized : Bool)
    (i_pts : Int) : Int :=
  if i_default_duration ≠ 0 then i_pts + (i_default_duration : Int)
  else if b_packetized then i_pts + 1
  else VLC_TS_INVALID

/-! ### BlockDecode: DTS sync-frame trimming (lines 636-647) -/

/-- Embedding of the DTS payload-length fixup in `BlockDecode` (mkv.cpp lines
636-647).  `len` is the payload length `p_block->i_buffer`; `sync` is the
return value of the external `GetSyncInfo` (positive exactly when a sync
header was detected, in which case it is the detected frame length).  The
code only scans payloads longer than 6 bytes, and then clamps the length to
`min(len, sync)`. -/
def dtsTrim (len : Nat) (sync : Int) : Nat :=
  if 6 < len then
    if 0 < sync then min len sync.toNat else len
  else len

/-! ### BlockDecode: grouped-frame loop bounds check (lines 561-588) -/

/-- Wrap-around modulus of `size_t` (64-bit). -/
def W64 : Nat := 2 ^ 64

/-- One lace/grouped frame of a block as seen by the `BlockDecode` loop:
whether `data->Buffer()` is non-null, and `data->Size()` in bytes. -/
structure FrameData where
  hasBuffer : Bool
  size : Nat
deriving DecidableEq

/-- Embedding of the grouped-frame loop of `BlockDecode` (mkv.cpp lines
571-588) at the granularity of its bounds check: `fs` is the running
`frame_size` accumulator (a `size_t`, hence tracked modulo `2^64`), `bs` the
declared block size.  Each iteration first adds the frame size to the
accumulator, then breaks when the buffer is missing, the accumulator wrapped
below the frame size, or the accumulator exceeds the block size; otherwise
the frame is emitted and the loop continues.  The result is the list of
emitted frames.  (Allocation and decompression failures of the later
per-frame stages, which also break the loop, are abstracted as absent.) -/
def blockFramesGo (bs : Nat) : Nat → List FrameData → List FrameData
  | _, [] => []
  | fs, f :: rest =>
    let fs2 := (fs + f.size) % W64
    if f.hasBuffer = false ∨ fs2 < f.size ∨ bs < fs2 then []
    else f :: blockFramesGo bs fs2 rest

/-- Frames emitted by the `BlockDecode` loop for a block with declared size
`bs`, starting from `frame_size = 0` as the code does. -/
def blockFrames (frames : List FrameData) (bs : Nat) : List FrameData :=
  blockFramesGo bs 0 frames

/-- Total byte count of a list of frames. -/
def sumSizes (l : List FrameData) : Nat :=
  (l.map FrameData.size).sum

/-- Restatement from the claim's words: the index of the first frame that
either has no buffer or whose cumulative byte count (in exact arithmetic,
starting from `s`) exceeds the declared block size `bs`; equals the list
length when no frame violates the bound. -/
def violIdx (bs : Nat) : Nat → List FrameData → Nat
  | _, [] => 0
  | s, f :: rest =>
    if f.hasBuffer = false ∨ bs < s + f.size then 0
    else violIdx bs (s + f.size) rest + 1

theorem blockFramesGo_eq_take (bs : Nat) (hbs : bs < W64) :
    ∀ (l : List FrameData) (s : Nat), s ≤ bs → (∀ f ∈ l, f.size < W64) →
      blockFramesGo bs s l = l.take (violIdx bs s l) := by
  intro l
  induction l with
  | nil => intro s _ _; rfl
  | cons f rest ih =>
    intro s hs hsz
    have hf : f.size < W64 := hsz f (List.mem_cons_self _ _)
    by_cases hw : s + f.size < W64
    · have hmod : (s + f.size) % W64 = s + f.size := Nat.mod_eq_of_lt hw
      simp only [blockFramesGo, violIdx, hmod]
      by_cases hbuf : f.hasBuffer = false
      · simp [hbuf]
      · by_cases hover : bs < s + f.size
        · simp [hbuf, hover, Nat.not_lt.mpr (Nat.le_add_left f.size s)]
        · have hcond : ¬(f.hasBuffer = false ∨ (s + f.size) < f.size ∨ bs < s + f.size) := by
            push_neg
            exact ⟨hbuf, Nat.le_add_left f.size s, Nat.not_lt.mp hover⟩
          rw [if_neg hcond, if_neg (by push_neg; exact ⟨hbuf, Nat.not_lt.mp hover⟩)]
          simp only [List.take_succ_cons]
          rw [ih (s + f.size) (Nat.not_lt.mp hover)
            (fun g hg => hsz g (List.mem_cons_of_mem _ hg))]
    · have hge : W64 ≤ s + f.size := Nat.not_lt.mp hw
      have hlt2 : s + f.size - W64 < W64 := by omega
      have hmod : (s + f.size) % W64 = s + f.size - W64 := by
        rw [Nat.mod_eq_sub_mod hge, Nat.mod_eq_of_lt hlt2]
      have hwrap : (s + f.size) % W64 < f.size := by
        rw [hmod]; omega
      have hviol : bs < s + f.size := by omega
      simp only [blockFramesGo, violIdx]
      rw [if_pos (Or.inr (Or.inl hwrap)), if_pos (Or.inr hviol)]
      rfl

theorem sum_take_violIdx (bs : Nat) :
    ∀ (l : List FrameData) (s : Nat), s ≤ bs →
      s + sumSizes (l.take (violIdx bs s l)) ≤ bs := by
  intro l
  induction l with
  | nil => intro s hs; simpa [sumSizes] using hs
  | cons f rest ih =>
    intro s hs
    simp only [violIdx]
    by_cases hcond : f.hasBuffer = false ∨ bs < s + f.size
    · simp [hcond, sumSizes, hs]
    · rw [if_neg hcond]
      push_neg at hcond
      have h2 := ih (s + f.size) hcond.2
      simp only [List.take_succ_cons, sumSizes, List.map_cons, List.sum_cons] at h2 ⊢
      omega

theorem violIdx_of_no_violation (bs : Nat) :
    ∀ (l : List FrameData) (s : Nat),
      (∀ f ∈ l, f.hasBuffer = true) → s + sumSizes l ≤ bs →
      violIdx bs s l = l.length := by
  intro l
  induction l with
  | nil => intro s _ _; rfl
  | cons f rest ih =>
    intro s hbuf hsum
    simp only [sumSizes, List.map_cons, List.sum_cons] at hsum
    have hb : f.hasBuffer = true := hbuf f (List.mem_cons_self _ _)
    have hcond : ¬(f.hasBuffer = false ∨ bs < s + f.size) := by
      push_neg
      refine ⟨by simp [hb], ?_⟩
      have : sumSizes rest ≥ 0 := Nat.zero_le _
      omega
    have hrest : s + f.size + sumSizes rest ≤ bs := by
      simp only [sumSizes]; omega
    simp only [violIdx, if_neg hcond, List.length_cons]
    rw [ih (s + f.size) (fun g hg => hbuf g (List.mem_cons_of_mem _ hg)) hrest]

/-! ### Seek: rejection gate (mkv.cpp lines 441-470)

The rejection decision of `Seek` only compares its inputs (`mtime_t` date,
`double` percent, `float` duration) against constants; those comparisons are
exact on the represented values, so the floating-point inputs are modelled as
rationals. -/

/-- Inputs of the `Seek` rejection gate: the requested absolute date
`i_mk_date`, the requested fraction `f_percent`, the stored duration
`f_duration`, and whether the current virtual segment has a current physical
segment (`p_vsegment->CurrentSegment() != NULL`). -/
structure SeekInput where
  i_mk_date : Int
  f_percent : ℚ
  f_duration : ℚ
  hasSegment : Bool
deriving DecidableEq

/-- Embedding of the early-return chain of `Seek` (mkv.cpp lines 451-470):
the call is a complete no-op (returns before any state change or delegation)
exactly when one of the four guards fires, in the code's order. -/
def seekRejected (s : SeekInput) : Bool :=
  if s.i_mk_date < 0 ∧ s.f_percent < 0 then true
  else if 1 < s.f_percent then true
  else if s.f_duration < 0 then true
  else if s.hasSegment = false then true
  else false

/-- Restatement of claim C3 in the words of the spec: rejected exactly when
the duration is unknown or non-positive, or the fraction exceeds 1.0, or both
the time and the fraction are negative. -/
def seekRejectedClaim (s : SeekInput) : Bool :=
  if s.f_duration ≤ 0 ∨ 1 < s.f_percent ∨ (s.i_mk_date < 0 ∧ s.f_percent < 0)
  then true else false

/-! ### Control: length and position queries (mkv.cpp lines 337-350) -/

/-- Result code of a control query (`VLC_SUCCESS` / `VLC_EGENERIC`). -/
inductive ControlResult where
  | success : ControlResult
  | egeneric : ControlResult
deriving DecidableEq

/-- Embedding of the `DEMUX_GET_LENGTH` branch of `Control` (mkv.cpp lines
337-344): when the stored duration is positive, write
`int64_t(f_duration * 1000)` and return success; otherwise return the generic
error without writing.  The second component is the value written through the
output pointer (`none` when nothing is written). -/
def demuxGetLength (f_duration : ℚ) : ControlResult × Option Int :=
  if 0 < f_duration then (ControlResult.success, some ⌊f_duration * 1000⌋)
  else (ControlResult.egeneric, none)

/-- Embedding of the `DEMUX_GET_POSITION` branch of `Control` (mkv.cpp lines
346-350): the fraction is written only when the stored duration is positive,
but the branch returns success unconditionally.  The second component is the
value written through the output pointer (`none` when nothing is written). -/
def demuxGetPosition (f_duration : ℚ) (i_pcr i_start_pts : Int) :
    ControlResult × Option ℚ :=
  (ControlResult.success,
    if 0 < f_duration then
      some ((if i_start_pts ≤ i_pcr then (i_pcr : ℚ) else (i_start_pts : ℚ)) /
        (1000 * f_duration))
    else none)

/-! ### Demux: the per-call step (mkv.cpp lines 709-786)

The step is embedded as a pure function of the demuxer state and an
environment record holding the answers the external collaborators
(`UpdateCurrentToChapter`, `CurrentSegment`, `BlockGet`, `CurrentEdition`,
`CurrentChapter`) give at their call sites during the step. -/

/-- Mutable demuxer state touched by one `Demux` step. -/
structure DemuxState where
  i_pts : Int
  i_start_pts : Int
  i_pcr : Int
  i_mk_chapter_time : Int
deriving DecidableEq

/-- Data of one block returned by `BlockGet`: its raw `GlobalTimecode()`
(nanoseconds, divided by 1000 by the code), its duration and its key /
discardable flags. -/
structure BlockData where
  globalTimecode : Int
  duration : Int
  keyPicture : Bool
  discardablePicture : Bool
deriving DecidableEq

/-- The per-track data of the active physical segment consulted by the step:
each track's `i_last_dts`. -/
structure SegmentTracks where
  lastDts : List Int
deriving DecidableEq

/-- Answers of the external collaborators during one `Demux` step. -/
structure DemuxEnv where
  /-- Result of `p_vsegment->UpdateCurrentToChapter()`; only consulted when
  `i_pts >= i_start_pts`. -/
  chapterSwitch : Bool
  /-- `p_vsegment->CurrentSegment()` after the potential chapter update. -/
  segment : Option SegmentTracks
  /-- Result of `p_segment->BlockGet(...)`: `none` models failure (no next
  block), `some` carries the block data. -/
  blockGet : Option BlockData
  /-- Whether `p_vsegment->CurrentEdition()` is non-null. -/
  hasEdition : Bool
  /-- The edition's `b_ordered` flag. -/
  ordered : Bool
  /-- `p_vsegment->CurrentChapter()` on the no-block path (line 737): `none`
  models a null chapter, `some stop` carries `i_mk_virtual_stop_time`. -/
  chapAtFail : Option Int
  /-- Whether `p_vsegment->CurrentChapter()` is non-null at the
  ordered-edition check before decoding (line 774). -/
  chapCoversAtDecode : Bool
deriving DecidableEq

/-- Outcome of one `Demux` step: the return code, the updated state, whether
`BlockDecode` was invoked on the block, and the clock reference published via
`ES_OUT_SET_PCR` (if any). -/
structure DemuxResult where
  ret : Int
  state : DemuxState
  decoded : Bool
  pcrPublished : Option Int
deriving DecidableEq

/-- Loop body of the minimum computation of `Demux` (mkv.cpp lines 760-764):
the candidate `acc` is replaced by a track's last decode timestamp `d`
whenever `d` is valid (`> VLC_TS_INVALID`) and below the candidate, or the
candidate is still the invalid sentinel. -/
def pcrStep (acc d : Int) : Int :=
  if VLC_TS_INVALID < d ∧ (d < acc ∨ acc = VLC_TS_INVALID) then d else acc

/-- Folding the loop body over all tracks, starting from the invalid
sentinel, as the code does. -/
def pcrMin (tracks : List Int) : Int :=
  tracks.foldl pcrStep VLC_TS_INVALID

/-- Embedding of the no-block branch of `Demux` (mkv.cpp lines 733-752):
`BlockGet` failed; in an ordered edition with a pending current chapter, set
the origin to the chapter's virtual stop time (on the `VLC_TS_0` base) and
nudge it by one tick, returning 1; otherwise return 0 (end of stream). -/
def demuxNoBlockPhase (st : DemuxState) (hasEdition ordered : Bool)
    (chapAtFail : Option Int) : DemuxResult :=
  if hasEdition = true ∧ ordered = true then
    match chapAtFail with
    | some stop => ⟨1, { st with i_pts := stop + VLC_TS_0 + 1 }, false, none⟩
    | none => ⟨0, st, false, none⟩
  else ⟨0, st, false, none⟩

/-- Embedding of the block-obtained tail of `Demux` (mkv.cpp lines 754-786):
update the origin from the block's global timecode, recompute the minimum
valid last decode timestamp and publish/record the clock reference past the
coalescing threshold (the code publishes `VLC_TS_0 + p_sys->i_pcr` BEFORE
storing the new minimum), then either report end of stream without decoding
(ordered edition, no covering chapter) or decode and report 1.  `C++` signed
division `GlobalTimecode()/1000` truncates toward zero, hence `Int.tdiv`. -/
def demuxBlockPhase (st : DemuxState) (seg : SegmentTracks) (blk : BlockData)
    (hasEdition ordered chapCovers : Bool) : DemuxResult :=
  if hasEdition = true ∧ ordered = true ∧ chapCovers = false then
    ⟨0,
      { st with
        i_pts := blk.globalTimecode.tdiv 1000 + st.i_mk_chapter_time + VLC_TS_0,
        i_pcr := if st.i_pcr + 300000 < pcrMin seg.lastDts then
            pcrMin seg.lastDts else st.i_pcr },
      false,
      if st.i_pcr + 300000 < pcrMin seg.lastDts then
        some (VLC_TS_0 + st.i_pcr) else none⟩
  else
    ⟨1,
      { st with
        i_pts := blk.globalTimecode.tdiv 1000 + st.i_mk_chapter_time + VLC_TS_0,
        i_pcr := if st.i_pcr + 300000 < pcrMin seg.lastDts then
            pcrMin seg.lastDts else st.i_pcr },
      true,
      if st.i_pcr + 300000 < pcrMin seg.lastDts then
        some (VLC_TS_0 + st.i_pcr) else none⟩

/-- Embedding of one `Demux` step (mkv.cpp lines 709-786).  The mutex
acquisition is external. -/
def Demux (st : DemuxState) (env : DemuxEnv) : DemuxResult :=
  if st.i_start_pts ≤ st.i_pts ∧ env.chapterSwitch = true then
    ⟨1, st, false, none⟩
  else
    match env.segment with
    | none => ⟨0, st, false, none⟩
    | some seg =>
      match env.blockGet with
      | none => demuxNoBlockPhase st env.hasEdition env.ordered env.chapAtFail
      | some blk =>
        demuxBlockPhase st seg blk env.hasEdition env.ordered
          env.chapCoversAtDecode

theorem Demux_eq_blockPhase (st : DemuxState) (env : DemuxEnv)
    (seg : SegmentTracks) (blk : BlockData)
    (hstep : ¬(st.i_start_pts ≤ st.i_pts ∧ env.chapterSwitch = true))
    (hseg : env.segment = some seg)
    (hblk : env.blockGet = some blk) :
    Demux st env = demuxBlockPhase st seg blk env.hasEdition env.ordered
      env.chapCoversAtDecode := by
  unfold Demux
  rw [if_neg hstep, hseg, hblk]

theorem Demux_eq_noBlockPhase (st : DemuxState) (env : DemuxEnv)
    (seg : SegmentTracks)
    (hstep : ¬(st.i_start_pts ≤ st.i_pts ∧ env.chapterSwitch = true))
    (hseg : env.segment = some seg)
    (hblk : env.blockGet = none) :
    Demux st env = demuxNoBlockPhase st env.hasEdition env.ordered
      env.chapAtFail := by
  unfold Demux
  rw [if_neg hstep, hseg, hblk]

/-- Restatement of claim C7 amended: the origin advance of `BlockDecode`
invalidates the origin for already-packetized tracks and advances it by one
tick for tracks that are not already packetized (when no default duration is
known). -/
def nextOriginAmended (i_default_duration : Nat) (b_packetized : Bool)
    (i_pts : Int) : Int :=
  if i_default_duration ≠ 0 then i_pts + (i_default_duration : Int)
  else if b_packetized then VLC_TS_INVALID
  else i_pts + 1

theorem foldl_pcrStep_le_acc :
    ∀ (l : List Int) (acc : Int), acc ≠ VLC_TS_INVALID →
      l.foldl pcrStep acc ≤ acc := by
  intro l
  induction l with
  | nil => intro acc _; exact le_refl acc
  | cons x r ih =>
    intro acc hacc
    simp only [List.foldl_cons, pcrStep]
    by_cases hc : VLC_TS_INVALID < x ∧ (x < acc ∨ acc = VLC_TS_INVALID)
    · rw [if_pos hc]
      have hx : x ≠ VLC_TS_INVALID := by
        have := hc.1; simp only [VLC_TS_INVALID] at *; omega
      have hlt : x < acc := by
        rcases hc.2 with h | h
        · exact h
        · exact absurd h hacc
      exact le_trans (ih x hx) (le_of_lt hlt)
    · rw [if_neg hc]
      exact ih acc hacc

theorem foldl_pcrStep_min :
    ∀ (l : List Int) (acc : Int), ∀ d ∈ l, VLC_TS_INVALID < d →
      l.foldl pcrStep acc ≤ d := by
  intro l
  induction l with
  | nil => intro acc d hd; exact absurd hd (List.not_mem_nil d)
  | cons x r ih =>
    intro acc d hd hdpos
    simp only [List.foldl_cons]
    rcases List.mem_cons.mp hd with rfl | hdr
    · by_cases hc : VLC_TS_INVALID < d ∧ (d < acc ∨ acc = VLC_TS_INVALID)
      · have hstep : pcrStep acc d = d := if_pos hc
        rw [hstep]
        have hdne : d ≠ VLC_TS_INVALID := by
          simp only [VLC_TS_INVALID] at hdpos ⊢; omega
        exact foldl_pcrStep_le_acc r d hdne
      · have hstep : pcrStep acc d = acc := if_neg hc
        rw [hstep]
        push_neg at hc
        have hacc := hc hdpos
        have haccne : acc ≠ VLC_TS_INVALID := hacc.2
        have haccle : acc ≤ d := hacc.1
        exact le_trans (foldl_pcrStep_le_acc r acc haccne) haccle
    · exact ih (pcrStep acc x) d hdr hdpos

/-! ## Claim theorems -/

/-- C1: for every frame of a video-track block decoded by `BlockDecode`,
timestamp assignment follows the track's regime: decode-only tracks get an
invalid presentation timestamp and decode = origin; presentation-only tracks
get presentation = decode = origin; otherwise presentation = origin and
decode is the origin for key or discardable pictures, the origin when the
track has no previous decode timestamp, and otherwise
min(origin, previous decode + default duration). -/
theorem claim_C1_video_timestamp_regimes (tk : VideoTsTrack) (i_pts : Int)
    (b_key_picture b_discardable_picture : Bool) :
    videoTimestamps tk i_pts b_key_picture b_discardable_picture =
      videoTimestampsSpec tk i_pts b_key_picture b_discardable_picture := by
  unfold videoTimestamps videoTimestampsSpec
  split_ifs <;> rfl

/-- C2: over the grouped frames of one block, the cumulative byte count of
the emitted frames never exceeds the declared block size; processing stops at
the first frame with no buffer or whose cumulative size exceeds the bound,
the already-emitted frames standing (the emitted list is the prefix up to the
first violation); and when no frame violates the bound all N frames are
emitted. -/
theorem claim_C2_block_bounds (frames : List FrameData) (bs : Nat)
    (hbs : bs < W64) (hsz : ∀ f ∈ frames, f.size < W64) :
    blockFrames frames bs = frames.take (violIdx bs 0 frames)
    ∧ sumSizes (blockFrames frames bs) ≤ bs
    ∧ ((∀ f ∈ frames, f.hasBuffer = true) → sumSizes frames ≤ bs →
        blockFrames frames bs = frames) := by
  have h1 : blockFrames frames bs = frames.take (violIdx bs 0 frames) :=
    blockFramesGo_eq_take bs hbs frames 0 (Nat.zero_le bs) hsz
  refine ⟨h1, ?_, ?_⟩
  · rw [h1]
    have h2 := sum_take_violIdx bs frames 0 (Nat.zero_le bs)
    omega
  · intro hbuf hsum
    rw [h1, violIdx_of_no_violation bs frames 0 hbuf (by omega)]
    exact List.take_length frames

theorem claim_C2_block_bounds_witness :
    blockFrames [⟨true, 3⟩, ⟨true, 4⟩] 7 = [⟨true, 3⟩, ⟨true, 4⟩]
    ∧ sumSizes (blockFrames [⟨true, 3⟩, ⟨true, 4⟩] 7) ≤ 7 := by
  have h := claim_C2_block_bounds [⟨true, 3⟩, ⟨true, 4⟩] 7 (by decide) (by decide)
  exact ⟨h.2.2 (by decide) (by decide), h.2.1⟩

/-- C3 counterexample: the claim's rejection condition disagrees with the
code on two concrete inputs.  With duration = 0 (non-positive, hence
"unknown" per the claim), date 5 and fraction 0, the code does NOT reject,
though the claim says it must; with a positive duration but no current
segment, the code DOES reject, though none of the claim's conditions hold. -/
theorem claim_C3_counterexample :
    seekRejected ⟨5, 0, 0, true⟩ = false
    ∧ seekRejectedClaim ⟨5, 0, 0, true⟩ = true
    ∧ seekRejected ⟨5, 0, 10, false⟩ = true
    ∧ seekRejectedClaim ⟨5, 0, 10, false⟩ = false := by
  refine ⟨?_, ?_, ?_, ?_⟩ <;> simp [seekRejected, seekRejectedClaim]

/-- C3 amended: a call to `Seek` is rejected as a complete no-op exactly when
the duration is negative (the stored "unknown" encoding), or the requested
fraction exceeds 1.0, or both the requested time and fraction are negative,
or the virtual segment has no current physical segment. -/
theorem claim_C3_amended_seek_rejection (s : SeekInput) :
    seekRejected s = true ↔
      ((s.i_mk_date < 0 ∧ s.f_percent < 0) ∨ 1 < s.f_percent ∨
        s.f_duration < 0 ∨ s.hasSegment = false) := by
  unfold seekRejected
  split_ifs with h1 h2 h3 h4 <;> simp_all

/-- C4: when the step reaches the read phase, obtains a block, and the
current edition is ordered with no current virtual chapter covering the
origin, the step reports end of stream (return 0) and does not invoke
`BlockDecode` on the block it read — even though the stream still yielded a
readable block. -/
theorem claim_C4_ordered_eos_without_decode (st : DemuxState)
    (env : DemuxEnv) (seg : SegmentTracks) (blk : BlockData)
    (hstep : ¬(st.i_start_pts ≤ st.i_pts ∧ env.chapterSwitch = true))
    (hseg : env.segment = some seg)
    (hblk : env.blockGet = some blk)
    (hed : env.hasEdition = true)
    (hord : env.ordered = true)
    (hchap : env.chapCoversAtDecode = false) :
    (Demux st env).ret = 0 ∧ (Demux st env).decoded = false := by
  rw [Demux_eq_blockPhase st env seg blk hstep hseg hblk, hed, hord, hchap]
  unfold demuxBlockPhase
  rw [if_pos ⟨rfl, rfl, rfl⟩]
  exact ⟨rfl, rfl⟩

theorem claim_C4_ordered_eos_without_decode_witness :
    (Demux ⟨0, 5, 0, 0⟩
        ⟨false, some ⟨[]⟩, some ⟨7000, 0, false, false⟩, true, true, none,
          false⟩).ret = 0
    ∧ (Demux ⟨0, 5, 0, 0⟩
        ⟨false, some ⟨[]⟩, some ⟨7000, 0, false, false⟩, true, true, none,
          false⟩).decoded = false :=
  claim_C4_ordered_eos_without_decode _ _ ⟨[]⟩ ⟨7000, 0, false, false⟩
    (by decide) rfl rfl rfl rfl rfl

/-- C5: when the step reaches the read phase and `BlockGet` yields no block,
then in an ordered edition with a pending current chapter the step sets the
origin to the chapter's virtual stop time plus one tick (on top of the
timeline-zero base `VLC_TS_0`) and returns 1 (progressed, no data);
otherwise it returns 0 (end of stream). -/
theorem claim_C5_no_block_chapter_end (st : DemuxState) (env : DemuxEnv)
    (seg : SegmentTracks)
    (hstep : ¬(st.i_start_pts ≤ st.i_pts ∧ env.chapterSwitch = true))
    (hseg : env.segment = some seg)
    (hblk : env.blockGet = none) :
    (∀ stop, env.hasEdition = true → env.ordered = true →
        env.chapAtFail = some stop →
        (Demux st env).ret = 1
        ∧ (Demux st env).state.i_pts = stop + VLC_TS_0 + 1)
    ∧ ((env.hasEdition = false ∨ env.ordered = false ∨
          env.chapAtFail = none) →
        (Demux st env).ret = 0) := by
  rw [Demux_eq_noBlockPhase st env seg hstep hseg hblk]
  constructor
  · intro stop hed hord hchap
    rw [hed, hord, hchap]
    unfold demuxNoBlockPhase
    rw [if_pos ⟨rfl, rfl⟩]
    exact ⟨rfl, rfl⟩
  · intro h
    unfold demuxNoBlockPhase
    rcases h with h | h | h
    · rw [h, if_neg (by simp)]
    · rw [h, if_neg (by simp)]
    · rw [h]
      by_cases hc : env.hasEdition = true ∧ env.ordered = true
      · rw [if_pos hc]
      · rw [if_neg hc]

theorem claim_C5_no_block_chapter_end_witness :
    (Demux ⟨0, 5, 0, 0⟩
        ⟨false, some ⟨[]⟩, none, true, true, some 100, true⟩).ret = 1
    ∧ (Demux ⟨0, 5, 0, 0⟩
        ⟨false, some ⟨[]⟩, none, true, true, some 100, true⟩).state.i_pts =
      100 + VLC_TS_0 + 1 :=
  (claim_C5_no_block_chapter_end _ _ ⟨[]⟩ (by decide) rfl rfl).1 100
    rfl rfl rfl

/-- C6 counterexample: a step that triggers the clock-reference publication
does not publish the recomputed minimum.  With stored reference 100 and a
single track whose last decode timestamp is 400200, the minimum (400200)
exceeds 100 + 300000, and the step publishes `VLC_TS_0 + 100 = 101` — the
previously stored reference — not the minimum 400200. -/
theorem claim_C6_counterexample :
    (Demux ⟨0, 5, 100, 0⟩
        ⟨false, some ⟨[400200]⟩, some ⟨5000, 0, false, false⟩, true, true,
          none, true⟩).pcrPublished = some 101
    ∧ pcrMin [400200] = 400200
    ∧ (101 : Int) ≠ 400200 := by
  refine ⟨?_, ?_, by decide⟩ <;> rfl

/-- C6 amended: on every step that obtains a block, the minimum valid
last-decode-timestamp across the segment's tracks is recomputed (`pcrMin` is
a lower bound of every valid track timestamp); whenever that minimum exceeds
the stored clock reference by more than the 300000-tick coalescing
threshold, the step publishes the PREVIOUSLY stored clock reference
(`VLC_TS_0 +` stored) and records the minimum as the new stored reference —
so each published reference lies more than the threshold below the next one,
making the published sequence strictly increasing while lagging one update
behind the minimum; otherwise nothing is published and the stored reference
is unchanged.  The stored reference never decreases. -/
theorem claim_C6_amended_pcr_publication (st : DemuxState) (env : DemuxEnv)
    (seg : SegmentTracks) (blk : BlockData)
    (hstep : ¬(st.i_start_pts ≤ st.i_pts ∧ env.chapterSwitch = true))
    (hseg : env.segment = some seg)
    (hblk : env.blockGet = some blk) :
    (∀ d ∈ seg.lastDts, VLC_TS_INVALID < d → pcrMin seg.lastDts ≤ d)
    ∧ (st.i_pcr + 300000 < pcrMin seg.lastDts →
        (Demux st env).pcrPublished = some (VLC_TS_0 + st.i_pcr)
        ∧ (Demux st env).state.i_pcr = pcrMin seg.lastDts
        ∧ VLC_TS_0 + st.i_pcr + 300000 <
            VLC_TS_0 + (Demux st env).state.i_pcr)
    ∧ (pcrMin seg.lastDts ≤ st.i_pcr + 300000 →
        (Demux st env).pcrPublished = none
        ∧ (Demux st env).state.i_pcr = st.i_pcr)
    ∧ st.i_pcr ≤ (Demux st env).state.i_pcr := by
  have hmin : ∀ d ∈ seg.lastDts, VLC_TS_INVALID < d → pcrMin seg.lastDts ≤ d :=
    fun d hd hdpos => foldl_pcrStep_min seg.lastDts VLC_TS_INVALID d hd hdpos
  rw [Demux_eq_blockPhase st env seg blk hstep hseg hblk]
  have hpubEq : (demuxBlockPhase st seg blk env.hasEdition env.ordered
      env.chapCoversAtDecode).pcrPublished =
      if st.i_pcr + 300000 < pcrMin seg.lastDts then
        some (VLC_TS_0 + st.i_pcr) else none := by
    unfold demuxBlockPhase
    split <;> rfl
  have hpcrEq : (demuxBlockPhase st seg blk env.hasEdition env.ordered
      env.chapCoversAtDecode).state.i_pcr =
      if st.i_pcr + 300000 < pcrMin seg.lastDts then
        pcrMin seg.lastDts else st.i_pcr := by
    unfold demuxBlockPhase
    split <;> rfl
  rw [hpubEq, hpcrEq]
  refine ⟨hmin, fun hpub => ?_, fun hle => ?_, ?_⟩
  · simp only [if_pos hpub]
    exact ⟨by trivial, by trivial, by omega⟩
  · have hnpub : ¬(st.i_pcr + 300000 < pcrMin seg.lastDts) := by omega
    simp only [if_neg hnpub]
    exact ⟨by trivial, by trivial⟩
  · by_cases hpub2 : st.i_pcr + 300000 < pcrMin seg.lastDts
    · simp only [if_pos hpub2]
      omega
    · simp only [if_neg hpub2]
      exact le_refl _

theorem claim_C6_amended_pcr_publication_witness :
    (Demux ⟨0, 5, 200, 0⟩
        ⟨false, some ⟨[600300]⟩, some ⟨5000, 0, false, false⟩, false, false,
          none, true⟩).pcrPublished = some (VLC_TS_0 + 200)
    ∧ (Demux ⟨0, 5, 200, 0⟩
        ⟨false, some ⟨[600300]⟩, some ⟨5000, 0, false, false⟩, false, false,
          none, true⟩).state.i_pcr = pcrMin [600300] := by
  have h := (claim_C6_amended_pcr_publication ⟨0, 5, 200, 0⟩
    ⟨false, some ⟨[600300]⟩, some ⟨5000, 0, false, false⟩, false, false,
      none, true⟩ ⟨[600300]⟩ ⟨5000, 0, false, false⟩
    (by decide) rfl rfl).2.1 (by decide)
  exact ⟨h.1, h.2.1⟩

/-- C7 counterexample: for a track with no known default duration that is
already packetized, the code invalidates the next origin, while the claim
says it advances by exactly one tick. -/
theorem claim_C7_counterexample :
    nextOrigin 0 true 5 = VLC_TS_INVALID
    ∧ nextOriginClaim 0 true 5 = 5 + 1
    ∧ nextOrigin 0 true 5 ≠ nextOriginClaim 0 true 5 := by decide

/-- C7 amended: after `BlockDecode` emits a frame, the origin for the next
grouped frame is the previous origin plus the default duration when one is
known; when none is known, the origin is INVALIDATED for already-packetized
tracks and advanced by exactly one tick for tracks that are not already
packetized (the track's category is not consulted). -/
theorem claim_C7_amended_next_origin (i_default_duration : Nat)
    (b_packetized : Bool) (i_pts : Int) :
    nextOrigin i_default_duration b_packetized i_pts =
      nextOriginAmended i_default_duration b_packetized i_pts := rfl

/-- C8: for a DTS frame whose payload is longer than 6 bytes and whose sync
scan succeeds (positive detected length), the emitted length is the detected
sync-frame length when that is smaller than the payload length, the payload
length is kept otherwise, and the emitted length never exceeds the payload
length. -/
theorem claim_C8_dts_sync_trim (len : Nat) (sync : Int)
    (hlen : 6 < len) (hsync : 0 < sync) :
    (sync.toNat < len → dtsTrim len sync = sync.toNat)
    ∧ (len ≤ sync.toNat → dtsTrim len sync = len)
    ∧ dtsTrim len sync ≤ len := by
  unfold dtsTrim
  rw [if_pos hlen, if_pos hsync]
  exact ⟨fun h => Nat.min_eq_right (le_of_lt h),
    fun h => Nat.min_eq_left h, Nat.min_le_left _ _⟩

theorem claim_C8_dts_sync_trim_witness :
    dtsTrim 10 8 = 8 ∧ dtsTrim 10 8 ≤ 10 := by
  have h := claim_C8_dts_sync_trim 10 8 (by decide) (by decide)
  exact ⟨h.1 (by decide), h.2.2⟩

/-- C9 counterexample: with duration 0 (non-positive, hence unknown), the
get-position query reports success while writing nothing — it neither fails
distinctly nor returns the requested value. -/
theorem claim_C9_counterexample :
    demuxGetPosition 0 5 3 = (ControlResult.success, none)
    ∧ ControlResult.success ≠ ControlResult.egeneric := by
  constructor
  · simp [demuxGetPosition]
  · decide

/-- C9 amended: the get-length query returns success and writes the value
exactly when the duration is positive, failing distinctly (generic error, no
value written) otherwise; the get-position query always returns success and
writes the value only when the duration is positive — so with an unknown
duration it reports success without having written the requested value. -/
theorem claim_C9_amended_control_queries (f_duration : ℚ)
    (i_pcr i_start_pts : Int) :
    ((demuxGetLength f_duration).1 = ControlResult.success ↔ 0 < f_duration)
    ∧ ((demuxGetLength f_duration).2.isSome = true ↔ 0 < f_duration)
    ∧ (demuxGetPosition f_duration i_pcr i_start_pts).1 =
        ControlResult.success
    ∧ ((demuxGetPosition f_duration i_pcr i_start_pts).2.isSome = true ↔
        0 < f_duration) := by
  unfold demuxGetLength demuxGetPosition
  by_cases h : 0 < f_duration <;> simp [h]

/-- C10: every `Demux` step returns exactly 0 (end of stream) or 1
(progressed/produced); the error code -1 of the documented return contract
is never returned. -/
theorem claim_C10_demux_return_codes (st : DemuxState) (env : DemuxEnv) :
    (Demux st env).ret = 0 ∨ (Demux st env).ret = 1 := by
  unfold Demux demuxNoBlockPhase demuxBlockPhase
  repeat' split
  all_goals first | exact Or.inl rfl | exact Or.inr rfl

end Mkv
